import Mathlib

/-!
Shallow embedding of the apiari-common library: src/shell.rs, src/ipc.rs and
src/state.rs.  Rust strings are modelled as lists of characters, file bytes
as lists of natural numbers below 256, and the filesystem seen by the state
store as a function from paths to optional file contents.  The external JSON
codec that the library delegates to (serde_json) is an explicit encoder or
decoder parameter of every operation that encodes or decodes, as the spec
keeps the JSON value model out of scope.  I/O primitives that can fail are
modelled with explicit success flags, so that the failure branches of the
source are represented; I/O failures whose effect a claim does not mention
(for example a failed open while polling) are outside the model.
-/

/-! ## shell.rs -/

/-- Single-quote character, code point 39. -/
def squote : Char := Char.ofNat 39

/-- Backslash character, code point 92. -/
def bslash : Char := Char.ofNat 92

/-- Models the replace step of shell_quote from src/shell.rs: every
single-quote character of the input is replaced by the four characters
quote, backslash, quote, quote; every other character is kept. -/
def replQuote : List Char → List Char
  | [] => []
  | c :: cs =>
    (if c = squote then [squote, bslash, squote, squote] else [c]) ++ replQuote cs

/-- Models shell_quote from src/shell.rs: the replaced string wrapped in
single quotes. -/
def shell_quote (s : List Char) : List Char :=
  squote :: (replQuote s ++ [squote])

/-- Models Rust char::is_alphanumeric, that is membership in the Unicode
Alphabetic or Number categories.  The table is exact on the Basic Latin and
Latin-1 blocks, the character range exercised in this development; code
points above U+00FF are treated as non-alphanumeric. -/
def rustIsAlphanumeric (c : Char) : Bool :=
  let n := c.toNat
  (48 ≤ n && n ≤ 57) || (65 ≤ n && n ≤ 90) || (97 ≤ n && n ≤ 122)
  || n = 0xAA || n = 0xB5 || n = 0xBA
  || n = 0xB2 || n = 0xB3 || n = 0xB9
  || (0xBC ≤ n && n ≤ 0xBE)
  || (0xC0 ≤ n && n ≤ 0xD6) || (0xD8 ≤ n && n ≤ 0xF6) || (0xF8 ≤ n && n ≤ 0xFF)

/-- Models Rust str::to_lowercase applied character by character.  Exact on
the Basic Latin and Latin-1 blocks, where Unicode lowercasing is one to one;
code points above U+00FF are left unchanged. -/
def lowerChar (c : Char) : Char :=
  let n := c.toNat
  if 65 ≤ n && n ≤ 90 then Char.ofNat (n + 32)
  else if (0xC0 ≤ n && n ≤ 0xD6) || (0xD8 ≤ n && n ≤ 0xDE) then Char.ofNat (n + 32)
  else c

/-- Removes every trailing element satisfying the predicate p. -/
def dropTrailing {α : Type} (p : α → Bool) : List α → List α
  | [] => []
  | c :: cs =>
    match dropTrailing p cs with
    | [] => if p c then [] else [c]
    | x :: xs => c :: x :: xs

/-- Models str::trim_matches for a single pattern character: all leading and
all trailing occurrences of the character are removed. -/
def trimMatches (t0 : Char) (l : List Char) : List Char :=
  dropTrailing (fun c => decide (c = t0)) (l.dropWhile (fun c => decide (c = t0)))

/-- Models sanitize from src/shell.rs: lowercase, replace every character
that is not alphanumeric by a hyphen, strip leading and trailing hyphens,
then keep at most the first 40 characters. -/
def sanitize (s : List Char) : List Char :=
  (trimMatches '-'
      ((s.map lowerChar).map (fun c => if rustIsAlphanumeric c then c else '-'))).take 40

/-- ASCII letter or ASCII digit, the predicate claim C6 describes. -/
def isAsciiAlnum (c : Char) : Bool :=
  ('a' ≤ c && c ≤ 'z') || ('A' ≤ c && c ≤ 'Z') || ('0' ≤ c && c ≤ '9')

/-- The transform claim C6 describes, written from the words of the claim:
lowercase every character, replace every character that is not an ASCII
letter or ASCII digit with a hyphen, strip leading and trailing hyphens,
then truncate to at most 40 characters.  Kept for comparison with the
source-derived sanitize. -/
def sanitizeClaimC6 (s : List Char) : List Char :=
  (trimMatches '-'
      ((s.map lowerChar).map (fun c => if isAsciiAlnum c then c else '-'))).take 40

/-- The sanitize transform as the amended claim C6 words it: lowercase every
character, replace every character that is not alphanumeric (Unicode letter
or digit, as char::is_alphanumeric) with a hyphen, strip leading and
trailing hyphens, then truncate to at most 40 characters.  The trailing
strip is phrased independently of the source model, via reverse. -/
def sanitizeSpecC6 (s : List Char) : List Char :=
  (((((s.map lowerChar).map
        (fun c => if rustIsAlphanumeric c then c else '-')).dropWhile
          (fun c => decide (c = '-'))).reverse.dropWhile
            (fun c => decide (c = '-'))).reverse).take 40

/-! ## ipc.rs, reader side

The reader state is its byte offset; the file at the reader's path is an
optional byte list (none models a missing path).  Poll returns the decoded
records together with the new stored offset. -/

/-- Models the sequence of chunks that successive BufReader::read_line calls
return when reading the given bytes to end of file: every chunk ends with
the newline byte 10, except possibly the last chunk, which read_line still
returns when the file ends without a newline. -/
def splitLines : List Nat → List (List Nat)
  | [] => []
  | b :: bs =>
    if b = 10 then [10] :: splitLines bs
    else
      match splitLines bs with
      | [] => [[b]]
      | l :: ls => (b :: l) :: ls

/-- Whitespace bytes: models char::is_whitespace on the ASCII range, the
range in which line chunks carry their terminators. -/
def isWsByte (b : Nat) : Bool :=
  b = 32 || b = 9 || b = 10 || b = 11 || b = 12 || b = 13

/-- Models str::trim on the bytes of one read_line chunk. -/
def trimBytes (l : List Nat) : List Nat :=
  dropTrailing isWsByte (l.dropWhile isWsByte)

/-- The record one read_line chunk contributes: a chunk that is empty after
trimming is skipped without consulting the decoder, otherwise the decoder is
consulted and a failed decode contributes nothing. -/
def lineRecord {T : Type} (dec : List Nat → Option T) (l : List Nat) : Option T :=
  if trimBytes l = [] then none else dec (trimBytes l)

/-- The loop of JsonlReader::poll from src/ipc.rs, over the chunks the
successive read_line calls return.  Returns the decoded records in file
order together with the total number of bytes consumed, which the caller
adds to the stored offset; the offset contribution of a chunk is counted
whether or not its decode succeeds. -/
def pollLoop {T : Type} (dec : List Nat → Option T) : List (List Nat) → List T × Nat
  | [] => ([], 0)
  | l :: ls =>
    (if trimBytes l = [] then (pollLoop dec ls).1
     else
       match dec (trimBytes l) with
       | some x => x :: (pollLoop dec ls).1
       | none => (pollLoop dec ls).1,
     l.length + (pollLoop dec ls).2)

/-- Models JsonlReader::poll from src/ipc.rs.  A missing path gives an empty
result with the offset unchanged; a file length at most the stored offset
gives an empty result with the offset unchanged; otherwise the bytes past
the offset are read line by line to end of file and the offset advances by
every byte read. -/
def poll {T : Type} (dec : List Nat → Option T) (file : Option (List Nat))
    (offset : Nat) : List T × Nat :=
  match file with
  | none => ([], offset)
  | some content =>
    if content.length ≤ offset then ([], offset)
    else
      ((pollLoop dec (splitLines (content.drop offset))).1,
       offset + (pollLoop dec (splitLines (content.drop offset))).2)

/-- Models JsonlReader::skip_to_end from src/ipc.rs: the pair of the new
stored offset and the returned value.  An existing file sets the offset to
the file length; a missing file sets it to 0; both are returned, never an
error. -/
def skip_to_end (file : Option (List Nat)) (_offset : Nat) : Nat × Nat :=
  match file with
  | some content => (content.length, content.length)
  | none => (0, 0)

/-! ## state.rs

Paths are lists of characters; the filesystem is a function from paths to
optional contents. -/

/-- Splits a path at its last slash: the directory part, slash included, and
the final component. -/
def splitPath (p : List Char) : List Char × List Char :=
  ((p.reverse.dropWhile (fun c => decide (c ≠ '/'))).reverse,
   (p.reverse.takeWhile (fun c => decide (c ≠ '/'))).reverse)

/-- Models Path::file_stem of a final component: the portion before the last
dot, or the whole name when there is no dot or the portion before the last
dot is empty (a leading-dot hidden file has no extension). -/
def fileStem (name : List Char) : List Char :=
  match name.reverse.dropWhile (fun c => decide (c ≠ '.')) with
  | [] => name
  | _ :: r => if r = [] then name else r.reverse

/-- Models Path::with_extension for a nonempty new extension, for paths
whose final component is a plain file name: the file stem followed by a dot
and the new extension, in the same directory. -/
def withExtension (p : List Char) (e : List Char) : List Char :=
  (splitPath p).1 ++ (fileStem (splitPath p).2 ++ ('.' :: e))

/-- The sibling temp file save_state writes before renaming:
path.with_extension of the string json.tmp. -/
def tmpPath (p : List Char) : List Char :=
  withExtension p ("json.tmp".toList)

/-- Functional update of the modelled filesystem at one path; a value of
none deletes the path. -/
def fsUpdate (fs : List Char → Option (List Char)) (p : List Char)
    (v : Option (List Char)) : List Char → Option (List Char) :=
  fun q => if q = p then v else fs q

/-- Failure cases of save_state: directory creation, serialization, the temp
write, the rename. -/
inductive SaveErr
  | dirErr | encodeErr | writeErr | renameErr

/-- Failure case of load_state on an existing but undecodable file. -/
inductive LoadErr
  | corrupt

/-- Models save_state from src/state.rs.  The flags dirOk, writeOk, renameOk
model success of create_dir_all, fs::write to the temp path, and fs::rename;
junk models whatever partial bytes a failed write may have left in the temp
file.  On success the temp file is written, then renamed onto the target:
the rename removes the temp path and makes the target hold the new data. -/
def save_state {T : Type} (ser : T → Option (List Char)) (p : List Char) (v : T)
    (dirOk writeOk renameOk : Bool) (junk : Option (List Char))
    (fs : List Char → Option (List Char)) :
    Except SaveErr Unit × (List Char → Option (List Char)) :=
  if dirOk = false then (Except.error SaveErr.dirErr, fs)
  else
    match ser v with
    | none => (Except.error SaveErr.encodeErr, fs)
    | some data =>
      if writeOk = false then
        (Except.error SaveErr.writeErr, fsUpdate fs (tmpPath p) junk)
      else
        if renameOk = false then
          (Except.error SaveErr.renameErr, fsUpdate fs (tmpPath p) (some data))
        else
          (Except.ok (),
           fsUpdate (fsUpdate (fsUpdate fs (tmpPath p) (some data)) (tmpPath p) none)
             p (some data))

/-- Models load_state from src/state.rs: a missing file yields the default
value, an existing file is decoded, and a failed decode is the corrupt-state
error. -/
def load_state {T : Type} (de : List Char → Option T) (dflt : T)
    (fs : List Char → Option (List Char)) (p : List Char) : Except LoadErr T :=
  match fs p with
  | none => Except.ok dflt
  | some data =>
    match de data with
    | some v => Except.ok v
    | none => Except.error LoadErr.corrupt

/-! ## Concrete instances used by counterexamples and witnesses -/

/-- A concrete decoder standing in for the external JSON codec at type Nat:
recognizes the two bytes of the digits 42 as the value 42. -/
def decEx1 (l : List Nat) : Option Nat :=
  if l = [52, 50] then some 42 else none

/-- A concrete decoder standing in for the external JSON codec: the line a1
decodes to 1, the line a2 decodes to 2, anything else fails to decode. -/
def decEx4 (l : List Nat) : Option Nat :=
  if l = [97, 49] then some 1 else if l = [97, 50] then some 2 else none

/-- File bytes of the three lines a1, not json, a2, each newline
terminated. -/
def fileC4 : List Nat :=
  [97, 49, 10, 110, 111, 116, 32, 106, 115, 111, 110, 10, 97, 50, 10]

/-- A concrete serializer standing in for the external JSON codec at type
Bool. -/
def serB (b : Bool) : Option (List Char) :=
  some (if b then "t".toList else "f".toList)

/-- The concrete decoder matching serB. -/
def deB (s : List Char) : Option Bool :=
  if s = "t".toList then some true else if s = "f".toList then some false else none

/-- The empty modelled filesystem. -/
def fsEmpty : List Char → Option (List Char) := fun _ => none

/-- A concrete filesystem with one decodable file at path a and one
undecodable file at path b. -/
def fsC7 : List Char → Option (List Char) :=
  fun q =>
    if q = "a".toList then some ("t".toList)
    else if q = "b".toList then some ("x".toList) else none

/-- Input of 39 letters, a hyphen, and two more letters: sanitize truncates
right after the interior hyphen. -/
def ex10 : List Char :=
  "aaaaaaaaaaaaaaaaaaaaaaaaaaaaaaaaaaaaaaa-bb".toList

/-! ## Helper lemmas on lists -/

/-- The head of a nonempty dropWhile result falsifies the predicate. -/
theorem dropWhile_head_false {α : Type} {p : α → Bool} :
    ∀ {l : List α} {x : α} {r : List α}, l.dropWhile p = x :: r → p x = false := by
  intro l
  induction l with
  | nil => intro x r h; simp at h
  | cons a as ih =>
    intro x r h
    rw [List.dropWhile_cons] at h
    cases hp : p a with
    | true => rw [hp] at h; simp at h; exact ih h
    | false => rw [hp] at h; simp at h; rw [← h.1]; exact hp

/-- Every element of a takeWhile result satisfies the predicate. -/
theorem mem_takeWhile_pred {α : Type} {p : α → Bool} :
    ∀ {l : List α} {x : α}, x ∈ l.takeWhile p → p x = true := by
  intro l
  induction l with
  | nil => intro x h; simp at h
  | cons a as ih =>
    intro x h
    rw [List.takeWhile_cons] at h
    cases hp : p a with
    | true =>
      rw [hp] at h
      simp at h
      rcases h with h | h
      · rw [h]; exact hp
      · exact ih h
    | false => rw [hp] at h; simp at h

/-- dropWhile of a list all of whose elements satisfy the predicate is
empty. -/
theorem dropWhile_nil_of_all {α : Type} {p : α → Bool} :
    ∀ {l : List α}, (∀ x ∈ l, p x = true) → l.dropWhile p = [] := by
  intro l
  induction l with
  | nil => intro _; rfl
  | cons a as ih =>
    intro h
    rw [List.dropWhile_cons, if_pos (h a (List.mem_cons_self a as))]
    exact ih fun x hx => h x (List.mem_cons_of_mem a hx)

/-- A nonempty dropTrailing result keeps the head of its input. -/
theorem dropTrailing_head {α : Type} {p : α → Bool} {a : α} {as : List α} {x : α}
    {r : List α} (h : dropTrailing p (a :: as) = x :: r) : x = a := by
  simp only [dropTrailing] at h
  split at h
  · split at h
    · exact absurd h (by simp)
    · injection h with h1 h2; exact h1.symm
  · injection h with h1 h2; exact h1.symm

/-- Elements of a dropTrailing result come from the input. -/
theorem mem_dropTrailing {α : Type} {p : α → Bool} :
    ∀ {l : List α} {x : α}, x ∈ dropTrailing p l → x ∈ l := by
  intro l
  induction l with
  | nil => intro x h; simp [dropTrailing] at h
  | cons a as ih =>
    intro x h
    simp only [dropTrailing] at h
    split at h
    · split at h
      · simp at h
      · simp at h; simp [h]
    · rename_i y ys hm
      rcases List.mem_cons.mp h with h1 | h1
      · simp [h1]
      · have hx : x ∈ dropTrailing p as := by rw [hm]; exact h1
        exact List.mem_cons_of_mem a (ih hx)

/-- dropWhile over a list extended by one element on the right. -/
theorem dropWhile_append_singleton {α : Type} (p : α → Bool) (c : α) :
    ∀ xs : List α,
      (xs ++ [c]).dropWhile p
        = if (xs.dropWhile p).isEmpty then (if p c then [] else [c])
          else xs.dropWhile p ++ [c] := by
  intro xs
  induction xs with
  | nil => simp [List.dropWhile_cons]
  | cons a as ih =>
    rw [List.cons_append, List.dropWhile_cons, List.dropWhile_cons]
    cases hp : p a with
    | true => rw [ih]; simp
    | false => simp

/-- dropTrailing agrees with stripping a prefix of the reversed list. -/
theorem dropTrailing_eq_reverse {α : Type} (p : α → Bool) :
    ∀ l : List α, dropTrailing p l = (l.reverse.dropWhile p).reverse := by
  intro l
  induction l with
  | nil => rfl
  | cons a as ih =>
    simp only [dropTrailing, List.reverse_cons]
    rw [dropWhile_append_singleton]
    by_cases hd : as.reverse.dropWhile p = []
    · have hm : dropTrailing p as = [] := by rw [ih, hd]; rfl
      simp only [hm, hd]
      cases hp : p a with
      | true => simp [hp]
      | false => simp [hp]
    · have hie : (as.reverse.dropWhile p).isEmpty = false := by
        cases hq : as.reverse.dropWhile p with
        | nil => exact absurd hq hd
        | cons y ys => rfl
      cases hm : dropTrailing p as with
      | nil =>
        exfalso
        rw [ih] at hm
        have : as.reverse.dropWhile p = [] := by
          cases hq : as.reverse.dropWhile p with
          | nil => rfl
          | cons y ys => rw [hq] at hm; exact absurd hm (by simp)
        exact hd this
      | cons y ys =>
        simp only [hm, hie, Bool.false_eq_true, if_false, List.reverse_append]
        simp only [List.reverse_cons, List.reverse_nil, List.nil_append,
          List.singleton_append]
        rw [← ih, hm]

/-! ## Helper lemmas on the reader -/

/-- read_line on nonempty remaining bytes returns a nonempty chunk, so the
chunk list of nonempty bytes is nonempty. -/
theorem splitLines_cons_ne_nil (b : Nat) (bs : List Nat) :
    splitLines (b :: bs) ≠ [] := by
  simp only [splitLines]
  by_cases hb : b = 10
  · rw [if_pos hb]; simp
  · rw [if_neg hb]; split <;> simp

/-- Only empty bytes split into an empty chunk list. -/
theorem eq_nil_of_splitLines_eq_nil {d : List Nat} (h : splitLines d = []) :
    d = [] := by
  cases d with
  | nil => rfl
  | cons b bs => exact absurd h (splitLines_cons_ne_nil b bs)

/-- The records of the poll loop are exactly the per-chunk records, kept in
file order; a chunk whose decode fails contributes nothing. -/
theorem pollLoop_fst {T : Type} (dec : List Nat → Option T) :
    ∀ ls : List (List Nat), (pollLoop dec ls).1 = ls.filterMap (lineRecord dec) := by
  intro ls
  induction ls with
  | nil => rfl
  | cons l ls ih =>
    simp only [pollLoop, List.filterMap_cons, lineRecord]
    by_cases ht : trimBytes l = []
    · rw [if_pos ht, if_pos ht]
      exact ih
    · rw [if_neg ht, if_neg ht]
      cases hd : dec (trimBytes l) <;> simp [ih]

/-- The poll loop consumes every byte handed to it, the trailing chunk
included. -/
theorem pollLoop_snd_splitLines {T : Type} (dec : List Nat → Option T) :
    ∀ d : List Nat, (pollLoop dec (splitLines d)).2 = d.length := by
  intro d
  induction d with
  | nil => rfl
  | cons b bs ih =>
    simp only [splitLines]
    by_cases hb : b = 10
    · rw [if_pos hb]
      simp only [pollLoop]
      rw [ih]
      simp [Nat.add_comm]
    · rw [if_neg hb]
      cases hm : splitLines bs with
      | nil =>
        have hbs : bs = [] := eq_nil_of_splitLines_eq_nil hm
        subst hbs
        rfl
      | cons l ls =>
        rw [hm] at ih
        simp only [pollLoop] at ih ⊢
        simp only [List.length_cons] at ih ⊢
        omega

/-- Characterization of poll when there are new bytes to read: the records
are the per-chunk records of everything past the offset, and the new offset
is the file length. -/
theorem poll_char {T : Type} (dec : List Nat → Option T) (c : List Nat) (off : Nat)
    (h : off < c.length) :
    poll dec (some c) off
      = ((splitLines (c.drop off)).filterMap (lineRecord dec), c.length) := by
  simp only [poll]
  rw [if_neg (by omega)]
  have h1 := pollLoop_fst dec (splitLines (c.drop off))
  have h2 := pollLoop_snd_splitLines dec (c.drop off)
  rw [h1, h2, List.length_drop]
  have : off + (c.length - off) = c.length := by omega
  rw [this]

/-! ## Helper lemmas on paths -/

/-- Splitting a path at its last slash reassembles to the path. -/
theorem splitPath_append (p : List Char) :
    (splitPath p).1 ++ (splitPath p).2 = p := by
  simp only [splitPath]
  rw [← List.reverse_append, List.takeWhile_append_dropWhile, List.reverse_reverse]

/-- Replacing the extension of a file name by json.tmp changes the name. -/
theorem fileStem_json_tmp_ne (name : List Char) :
    fileStem name ++ ('.' :: "json.tmp".toList) ≠ name := by
  intro hEq
  simp only [fileStem] at hEq
  split at hEq
  · have hlen := congrArg List.length hEq
    rw [List.length_append, List.length_cons] at hlen
    omega
  · rename_i x r hm
    split at hEq
    · have hlen := congrArg List.length hEq
      rw [List.length_append, List.length_cons] at hlen
      omega
    · have hx : x = '.' := by
        have hh := dropWhile_head_false hm
        simpa using hh
      have h1 := List.takeWhile_append_dropWhile
        (p := fun c => decide (c ≠ '.')) (l := name.reverse)
      rw [hm] at h1
      have h2 := congrArg List.reverse h1
      rw [List.reverse_reverse, List.reverse_append] at h2
      have h5 : r.reverse ++ ('.' :: "json.tmp".toList)
          = (x :: r).reverse ++ (name.reverse.takeWhile
              (fun c => decide (c ≠ '.'))).reverse := hEq.trans h2.symm
      rw [hx, List.reverse_cons, List.append_assoc, List.singleton_append] at h5
      have h3 := List.append_cancel_left h5
      injection h3 with hh ht
      have hdot : ('.' : Char) ∈ name.reverse.takeWhile (fun c => decide (c ≠ '.')) := by
        rw [← List.mem_reverse, ← ht]
        decide
      have hq := mem_takeWhile_pred hdot
      simp at hq

/-- The json.tmp sibling of a path is never the path itself. -/
theorem tmpPath_ne (p : List Char) : tmpPath p ≠ p := by
  intro hEq
  have hsplit := splitPath_append p
  rw [tmpPath, withExtension] at hEq
  have h2 : (splitPath p).1 ++ (fileStem (splitPath p).2 ++ ('.' :: "json.tmp".toList))
      = (splitPath p).1 ++ (splitPath p).2 := hEq.trans hsplit.symm
  exact fileStem_json_tmp_ne (splitPath p).2 (List.append_cancel_left h2)

/-! ## Claims on state.rs -/

/-- Claim C2: for every path and value, if save_state fails, then whatever
the failed stage was, the prior content of the target path is left
untouched; and after a successful save_state the file of the temp naming
pattern for that path is absent. -/
theorem c2_save_atomic {T : Type} (ser : T → Option (List Char)) (p : List Char)
    (v : T) (dirOk writeOk renameOk : Bool) (junk : Option (List Char))
    (fs : List Char → Option (List Char)) :
    (∀ e, (save_state ser p v dirOk writeOk renameOk junk fs).1 = Except.error e →
        (save_state ser p v dirOk writeOk renameOk junk fs).2 p = fs p)
    ∧ ((save_state ser p v dirOk writeOk renameOk junk fs).1 = Except.ok () →
        (save_state ser p v dirOk writeOk renameOk junk fs).2 (tmpPath p) = none) := by
  have hne : ¬ p = tmpPath p := fun h => tmpPath_ne p h.symm
  cases dirOk with
  | false =>
    refine ⟨fun e _ => rfl, fun hok => ?_⟩
    simp [save_state] at hok
  | true =>
    cases hs : ser v with
    | none =>
      refine ⟨fun e _ => ?_, fun hok => ?_⟩
      · simp [save_state, hs]
      · simp [save_state, hs] at hok
    | some data =>
      cases writeOk with
      | false =>
        refine ⟨fun e _ => ?_, fun hok => ?_⟩
        · simp [save_state, hs, fsUpdate, hne]
        · simp [save_state, hs] at hok
      | true =>
        cases renameOk with
        | false =>
          refine ⟨fun e _ => ?_, fun hok => ?_⟩
          · simp [save_state, hs, fsUpdate, hne]
          · simp [save_state, hs] at hok
        | true =>
          refine ⟨fun e he => ?_, fun _ => ?_⟩
          · simp [save_state, hs] at he
          · simp [save_state, hs, fsUpdate, tmpPath_ne p]

/-- Witness for claim C2 at concrete inputs: a failed temp write leaves the
target untouched, and a fully successful save leaves no temp file. -/
theorem c2_witness :
    (save_state serB ("state.json".toList) true true false true none fsEmpty).2
        ("state.json".toList) = fsEmpty ("state.json".toList)
    ∧ (save_state serB ("state.json".toList) true true true true none fsEmpty).2
        (tmpPath ("state.json".toList)) = none :=
  ⟨(c2_save_atomic serB ("state.json".toList) true true false true none
      fsEmpty).1 SaveErr.writeErr rfl,
   (c2_save_atomic serB ("state.json".toList) true true true true none
      fsEmpty).2 rfl⟩

/-- Claim C3: for every serializable value and fresh path, save_state
followed by load_state succeeds and returns a value equal to the one saved,
given that the external codec round trips on that value. -/
theorem c3_roundtrip {T : Type} (ser : T → Option (List Char))
    (de : List Char → Option T) (dflt : T) (fs : List Char → Option (List Char))
    (p : List Char) (v : T) (data : List Char)
    (_hfresh : fs p = none) (hser : ser v = some data) (hde : de data = some v) :
    (save_state ser p v true true true none fs).1 = Except.ok ()
    ∧ load_state de dflt (save_state ser p v true true true none fs).2 p
        = Except.ok v := by
  constructor
  · simp [save_state, hser]
  · simp [save_state, hser, load_state, fsUpdate, hde]

/-- Witness for claim C3 at a concrete codec, value and path. -/
theorem c3_witness :
    (save_state serB ("state.json".toList) true true true true none fsEmpty).1
        = Except.ok ()
    ∧ load_state deB false
        (save_state serB ("state.json".toList) true true true true none fsEmpty).2
        ("state.json".toList) = Except.ok true :=
  c3_roundtrip serB deB false fsEmpty ("state.json".toList) true ("t".toList)
    rfl rfl (by decide)

/-- Claim C7: load_state returns the default on a missing file, the
corrupt-state error on an existing but undecodable file, and the decoded
value on an existing decodable file. -/
theorem c7_load_cases {T : Type} (de : List Char → Option T) (dflt : T)
    (fs : List Char → Option (List Char)) (p : List Char) :
    (fs p = none → load_state de dflt fs p = Except.ok dflt)
    ∧ (∀ d, fs p = some d → de d = none →
        load_state de dflt fs p = Except.error LoadErr.corrupt)
    ∧ (∀ d w, fs p = some d → de d = some w →
        load_state de dflt fs p = Except.ok w) :=
  ⟨fun h => by simp [load_state, h],
   fun d h hd => by simp [load_state, h, hd],
   fun d w h hd => by simp [load_state, h, hd]⟩

/-- Witness for claim C7: the three cases at a concrete filesystem. -/
theorem c7_witness :
    load_state deB false fsC7 ("z".toList) = Except.ok false
    ∧ load_state deB false fsC7 ("b".toList) = Except.error LoadErr.corrupt
    ∧ load_state deB false fsC7 ("a".toList) = Except.ok true :=
  ⟨(c7_load_cases deB false fsC7 ("z".toList)).1 (by decide),
   (c7_load_cases deB false fsC7 ("b".toList)).2.1 ("x".toList) (by decide) (by decide),
   (c7_load_cases deB false fsC7 ("a".toList)).2.2 ("t".toList) true (by decide) (by decide)⟩

/-! ## Claims on the reader -/

/-- Counterexample to claim C1: a file whose content is the two bytes of the
digits 42 with no terminating newline.  The claim predicts that poll leaves
the trailing partial line unconsumed, returning no record with the offset
still 0; the code consumes it, advancing the offset to 2 and decoding the
partial line. -/
theorem c1_counterexample :
    poll decEx1 (some [52, 50]) 0 = ([42], 2)
    ∧ poll decEx1 (some [52, 50]) 0 ≠ ([], 0) := by
  constructor
  · decide
  · decide

/-- Amended claim C1: poll consumes a trailing unterminated line like any
complete line.  Whenever there are bytes past the stored offset, the offset
advances to the full file length, the trailing partial line included, and
the records are the per-chunk decodes of every chunk read, the trailing
partial chunk included. -/
theorem c1_amended {T : Type} (dec : List Nat → Option T) (c : List Nat)
    (off : Nat) (h : off < c.length) :
    (poll dec (some c) off).2 = c.length
    ∧ (poll dec (some c) off).1
        = (splitLines (c.drop off)).filterMap (lineRecord dec) := by
  rw [poll_char dec c off h]
  exact ⟨rfl, rfl⟩

/-- Witness for the amended claim C1 at the concrete unterminated file. -/
theorem c1_amended_witness :
    (poll decEx1 (some [52, 50]) 0).2 = 2
    ∧ (poll decEx1 (some [52, 50]) 0).1
        = (splitLines ([52, 50].drop 0)).filterMap (lineRecord decEx1) :=
  c1_amended decEx1 [52, 50] 0 (by decide)

/-- Claim C4: a newline-terminated line whose trimmed content fails to
decode raises no error and emits no record, but the offset still advances
past it: the records of a poll are exactly the per-chunk successful decodes,
in file order, and the offset ends at the file length.  In particular the
concrete file with lines a1, not json, a2 yields exactly the records 1 and 2
from one poll, and a second poll with no new writes yields nothing with the
offset unchanged. -/
theorem c4_malformed_skip :
    (∀ (T : Type) (dec : List Nat → Option T) (c : List Nat) (off : Nat),
        off < c.length →
          poll dec (some c) off
            = ((splitLines (c.drop off)).filterMap (lineRecord dec), c.length))
    ∧ poll decEx4 (some fileC4) 0 = ([1, 2], 15)
    ∧ poll decEx4 (some fileC4) 15 = ([], 15) := by
  refine ⟨fun T dec c off h => poll_char dec c off h, by decide, by decide⟩

/-- Witness for claim C4: a malformed newline-terminated line (the byte 53
then a newline, which the concrete decoder rejects). -/
theorem c4_witness :
    poll decEx1 (some [53, 10]) 0
      = ((splitLines ([53, 10].drop 0)).filterMap (lineRecord decEx1), 2) :=
  c4_malformed_skip.1 Nat decEx1 [53, 10] 0 (by decide)

/-- Claim C5: a missing path, or a file whose length is at most the stored
offset, yields an empty sequence with the offset unchanged, and no error is
possible. -/
theorem c5_no_data {T : Type} (dec : List Nat → Option T) (off : Nat) :
    poll dec none off = ([], off)
    ∧ ∀ c : List Nat, c.length ≤ off → poll dec (some c) off = ([], off) := by
  constructor
  · rfl
  · intro c hc
    simp [poll, if_pos hc]

/-- Witness for claim C5: a one-byte file polled at offset 5. -/
theorem c5_witness : poll decEx1 (some [49]) 5 = ([], 5) :=
  (c5_no_data decEx1 5).2 [49] (by decide)

/-- Claim C8: skip_to_end sets the offset to the file length when the file
exists and to 0 when it does not, returning the resulting offset in both
cases; a missing file is not an error. -/
theorem c8_skip_to_end :
    ∀ (c : List Nat) (off : Nat),
      skip_to_end (some c) off = (c.length, c.length)
      ∧ skip_to_end none off = (0, 0) :=
  fun _ _ => ⟨rfl, rfl⟩

/-! ## Helper lemmas for the shell claims -/

/-- Elements of a dropWhile result come from the input. -/
theorem mem_dropWhile {α : Type} {p : α → Bool} :
    ∀ {l : List α} {x : α}, x ∈ l.dropWhile p → x ∈ l := by
  intro l
  induction l with
  | nil => intro x h; simp at h
  | cons a as ih =>
    intro x h
    rw [List.dropWhile_cons] at h
    cases hp : p a with
    | true =>
      rw [hp] at h
      simp only [if_pos rfl] at h
      exact List.mem_cons_of_mem a (ih h)
    | false =>
      rw [hp] at h
      simpa using h

/-- A nonempty take keeps the head of its input. -/
theorem take_head {α : Type} {l : List α} {n : Nat} {x : α} {r : List α}
    (h : l.take n = x :: r) : ∃ t, l = x :: t := by
  cases l with
  | nil => simp at h
  | cons a as =>
    cases n with
    | zero => simp at h
    | succ m =>
      rw [List.take_succ_cons] at h
      injection h with h1 h2
      exact ⟨as, by rw [h1]⟩

/-- The replace step of shell_quote is injective: its images form a prefix
code, because the only multi-character image starts with the quote character
while every single-character image is a character other than the quote. -/
theorem replQuote_inj :
    ∀ s1 s2 : List Char, replQuote s1 = replQuote s2 → s1 = s2 := by
  intro s1
  induction s1 with
  | nil =>
    intro s2 h
    cases s2 with
    | nil => rfl
    | cons b bs =>
      exfalso
      by_cases hb : b = squote <;> simp [replQuote, hb] at h
  | cons a as ih =>
    intro s2 h
    cases s2 with
    | nil =>
      exfalso
      by_cases ha : a = squote <;> simp [replQuote, ha] at h
    | cons b bs =>
      by_cases ha : a = squote <;> by_cases hb : b = squote
      · simp only [replQuote] at h
        rw [if_pos ha, if_pos hb] at h
        simp only [List.cons_append, List.nil_append, List.cons.injEq,
          true_and] at h
        rw [ha, hb, ih bs h]
      · exfalso
        simp only [replQuote] at h
        rw [if_pos ha, if_neg hb] at h
        simp only [List.cons_append, List.nil_append, List.singleton_append,
          List.cons.injEq] at h
        exact hb h.1.symm
      · exfalso
        simp only [replQuote] at h
        rw [if_neg ha, if_pos hb] at h
        simp only [List.cons_append, List.nil_append, List.singleton_append,
          List.cons.injEq] at h
        exact ha h.1
      · simp only [replQuote] at h
        rw [if_neg ha, if_neg hb] at h
        simp only [List.cons_append, List.nil_append, List.singleton_append,
          List.cons.injEq] at h
        rw [h.1, ih bs h.2]

/-! ## Claims on shell.rs -/

/-- Claim C9: shell_quote is injective, so distinct inputs are never
conflated after quoting. -/
theorem c9_quote_injective :
    ∀ s1 s2 : List Char, shell_quote s1 = shell_quote s2 → s1 = s2 := by
  intro s1 s2 h
  simp only [shell_quote, List.cons.injEq] at h
  exact replQuote_inj s1 s2 (List.append_cancel_right h.2)

/-- Witness for claim C9 at a concrete input. -/
theorem c9_witness : ("ab".toList) = ("ab".toList) :=
  c9_quote_injective ("ab".toList) ("ab".toList) rfl

/-- Counterexample to claim C6: the letter with code point 233 (Latin small
letter e with acute) is alphanumeric for char::is_alphanumeric but is not an
ASCII letter or digit, so the ASCII pipeline of the claim erases it while
sanitize keeps it. -/
theorem c6_counterexample :
    sanitize ("é".toList) ≠ sanitizeClaimC6 ("é".toList)
    ∧ sanitize ("é".toList) = "é".toList
    ∧ sanitizeClaimC6 ("é".toList) = [] := by
  refine ⟨by decide, by decide, by decide⟩

/-- Amended claim C6: for every input string, sanitize equals the pipeline
that lowercases every character, replaces every character that is not
alphanumeric (a Unicode letter or digit, as char::is_alphanumeric) with a
hyphen, strips leading and trailing hyphens, then truncates to at most 40
characters; and every all-hyphen or empty input yields the empty string. -/
theorem c6_amended (s : List Char) :
    sanitize s = sanitizeSpecC6 s
    ∧ ((∀ c ∈ s, c = '-') → sanitize s = []) := by
  constructor
  · simp only [sanitize, sanitizeSpecC6, trimMatches]
    rw [dropTrailing_eq_reverse]
  · intro hall
    have hm : ∀ x ∈ (s.map lowerChar).map
        (fun c => if rustIsAlphanumeric c then c else '-'),
        (fun c => decide (c = '-')) x = true := by
      intro x hx
      rcases List.mem_map.mp hx with ⟨a, ha, hfa⟩
      rcases List.mem_map.mp ha with ⟨c, hc, hlc⟩
      have hc2 : c = '-' := hall c hc
      rw [hc2] at hlc
      have ha2 : a = '-' := by rw [← hlc]; decide
      rw [ha2] at hfa
      rw [← hfa]
      decide
    simp only [sanitize, trimMatches]
    rw [dropWhile_nil_of_all hm]
    rfl

/-- Witness for the amended claim C6: the concrete test vector and an
all-hyphen input. -/
theorem c6_witness :
    sanitize ("Fix the BUG!".toList) = sanitizeSpecC6 ("Fix the BUG!".toList)
    ∧ sanitize ("---".toList) = [] :=
  ⟨(c6_amended ("Fix the BUG!".toList)).1,
   (c6_amended ("---".toList)).2 (by decide)⟩

/-- Claim C10: sanitize output has at most 40 characters, every character of
it is alphanumeric or a hyphen, and a nonempty output never starts with a
hyphen, while the output can end with a hyphen because truncation to 40
characters happens after hyphen stripping and can cut right after an
interior hyphen. -/
theorem c10_sanitize_shape :
    (∀ s : List Char,
        (sanitize s).length ≤ 40
        ∧ (∀ c ∈ sanitize s, rustIsAlphanumeric c = true ∨ c = '-')
        ∧ (∀ c r, sanitize s = c :: r → c ≠ '-'))
    ∧ (sanitize ex10).getLast? = some '-' := by
  constructor
  · intro s
    refine ⟨?_, ?_, ?_⟩
    · simp only [sanitize]
      rw [List.length_take]
      exact Nat.min_le_left 40 _
    · intro c hc
      simp only [sanitize, trimMatches] at hc
      have h1 := List.mem_of_mem_take hc
      have h2 := mem_dropTrailing h1
      have h3 := mem_dropWhile h2
      rcases List.mem_map.mp h3 with ⟨a, _, hfa⟩
      by_cases hra : rustIsAlphanumeric a = true
      · left
        rw [← hfa, if_pos hra]
        exact hra
      · right
        rw [← hfa, if_neg hra]
    · intro c r hc
      simp only [sanitize, trimMatches] at hc
      rcases take_head hc with ⟨t, ht⟩
      cases hL : ((s.map lowerChar).map
          (fun c => if rustIsAlphanumeric c then c else '-')).dropWhile
            (fun c => decide (c = '-')) with
      | nil =>
        rw [hL] at ht
        simp [dropTrailing] at ht
      | cons y ys =>
        rw [hL] at ht
        have hcy := dropTrailing_head ht
        have hpy := dropWhile_head_false hL
        rw [hcy]
        simpa using hpy
  · decide

/-- Witness for claim C10 at concrete inputs. -/
theorem c10_witness :
    (sanitize ("ab".toList)).length ≤ 40
    ∧ (rustIsAlphanumeric 'a' = true ∨ 'a' = '-')
    ∧ 'a' ≠ '-' :=
  ⟨(c10_sanitize_shape.1 ("ab".toList)).1,
   (c10_sanitize_shape.1 ("ab".toList)).2.1 'a' (by decide),
   (c10_sanitize_shape.1 ("ab".toList)).2.2 'a' ['b'] (by decide)⟩
